import Mathlib

/-!
Shallow embedding of the bundlerwit bundle-dispatch engine and volume
trading scheduler, translated from the TypeScript source.

The embedding covers:
* the bundle splitter `splitLargeBundles` and the signer
  `completeBundleSigning` of the buy module;
* the relay client `sendBundle` and the single / batch dispatch modes
  `executeBuySingleMode` / `executeBuyBatchMode`, instrumented with an
  explicit event trace (preparation calls, inter-unit delays, rate-limiter
  acquisitions, relay submissions);
* the `VolumeBot` scheduler class (`start`, `stop`, `getStats`,
  `startTradingLoop` timer arming) and its retry wrapper
  `executeWithRetry`.

Remote services (transaction builder, relay, key decoding, signing of
opaque transaction blobs, fee-transaction construction) are modelled as
oracles supplied in an `Env` record: each oracle returns `Except Err`
mirroring the try/catch structure of the source.  Opaque base58 transaction
blobs are modelled as `String`.
-/

namespace Bundlerwit

/-- Opaque serialized transaction blob (base58/base64 string in the source). -/
abbrev Tx := String

/-- Error value carrying the JS `Error.message` string. -/
structure Err where
  message : String
  deriving Repr, DecidableEq

/-- Interface `BuyBundle` from the buy module: an ordered list of encoded
transactions. -/
structure BuyBundle where
  transactions : List Tx
  deriving Repr, DecidableEq

/-- Constant `MAX_TRANSACTIONS_PER_BUNDLE = 5` from the buy module. -/
def MAX_TRANSACTIONS_PER_BUNDLE : Nat := 5

/-- Fuel-indexed slice loop; the fuel is instantiated with the list length,
which bounds the number of slices taken, so the zero-fuel branch is
unreachable from `chunk5`. Structural recursion on the fuel keeps the
function kernel-reducible. -/
def chunk5Go {α : Type} : Nat → List α → List (List α)
  | _, [] => []
  | 0, _ :: _ => []
  | fuel + 1, a :: as => ((a :: as).take 5) :: chunk5Go fuel ((a :: as).drop 5)

/-- Consecutive chunks of five.  Models the slice loops
`for (let i = 0; i < xs.length; i += 5) xs.slice(i, i + 5)` used both by
`splitLargeBundles` (on transactions) and by `executeBuyBatchMode`
(on wallets, `batchSize = 5`). -/
def chunk5 {α : Type} (l : List α) : List (List α) :=
  chunk5Go l.length l

theorem chunk5Go_fuel_irrelevant {α : Type} (fuel fuel' : Nat) (l : List α)
    (h : l.length ≤ fuel) (h' : l.length ≤ fuel') :
    chunk5Go fuel l = chunk5Go fuel' l := by
  induction fuel generalizing fuel' l with
  | zero =>
    cases l with
    | nil => cases fuel' <;> rfl
    | cons a as => simp at h
  | succ n ih =>
    cases l with
    | nil => cases fuel' <;> rfl
    | cons a as =>
      cases fuel' with
      | zero => simp at h'
      | succ m =>
        simp only [chunk5Go]
        congr 1
        apply ih <;>
          (simp only [List.length_drop, List.length_cons] at *; omega)

theorem chunk5_cons {α : Type} (a : α) (as : List α) :
    chunk5 (a :: as) = ((a :: as).take 5) :: chunk5 ((a :: as).drop 5) := by
  simp only [chunk5, List.length_cons, chunk5Go]
  congr 1
  apply chunk5Go_fuel_irrelevant
  · simp only [List.length_drop, List.length_cons]
    omega
  · exact le_rfl

/-- Induction principle matching the slice loop: the empty list, and a
nonempty list assuming the property for its drop-5 tail. -/
theorem chunk5_induction {α : Type} (motive : List α → Prop)
    (h0 : motive [])
    (h1 : ∀ a (as : List α), motive ((a :: as).drop 5) → motive (a :: as)) :
    ∀ l, motive l := by
  have key : ∀ n (l : List α), l.length ≤ n → motive l := by
    intro n
    induction n with
    | zero =>
      intro l hl
      rw [List.length_eq_zero.mp (Nat.le_zero.mp hl)]
      exact h0
    | succ n ih =>
      intro l hl
      cases l with
      | nil => exact h0
      | cons a as =>
        apply h1
        apply ih
        simp only [List.length_drop, List.length_cons] at *
        omega
  exact fun l => key l.length l le_rfl

/-- Function `splitLargeBundles` of the buy module: bundles whose
transaction list is within `MAX_TRANSACTIONS_PER_BUNDLE` pass through
unchanged, larger ones are split into consecutive chunks of at most five
transactions, preserving order.  (The source also skips bundles whose
`transactions` property is missing or not an array; in this embedding every
`BuyBundle` carries a list, so that guard is vacuous.) -/
def splitLargeBundles (bundles : List BuyBundle) : List BuyBundle :=
  bundles.flatMap fun b =>
    if b.transactions.length ≤ MAX_TRANSACTIONS_PER_BUNDLE then [b]
    else (chunk5 b.transactions).map BuyBundle.mk

/-- Concatenation of the transactions of a list of bundles. -/
def txJoin (bundles : List BuyBundle) : List Tx :=
  (bundles.map BuyBundle.transactions).flatten

theorem chunk5_flatten {α : Type} (l : List α) : (chunk5 l).flatten = l := by
  induction l using chunk5_induction with
  | h0 => rfl
  | h1 a as ih =>
    rw [chunk5_cons]
    simp only [List.flatten_cons, ih, List.take_append_drop]

theorem chunk5_mem_length_le {α : Type} (l : List α) (c : List α)
    (hc : c ∈ chunk5 l) : c.length ≤ 5 := by
  induction l using chunk5_induction generalizing c with
  | h0 => simp [chunk5, chunk5Go] at hc
  | h1 a as ih =>
    rw [chunk5_cons] at hc
    rcases List.mem_cons.mp hc with h | h
    · subst h
      simp
    · exact ih c h

theorem chunk5_length {α : Type} (l : List α) :
    (chunk5 l).length = (l.length + 4) / 5 := by
  induction l using chunk5_induction with
  | h0 => simp [chunk5, chunk5Go]
  | h1 a as ih =>
    rw [chunk5_cons]
    simp only [List.length_cons, ih, List.length_drop]
    omega

theorem splitLargeBundles_txJoin (bundles : List BuyBundle) :
    txJoin (splitLargeBundles bundles) = txJoin bundles := by
  induction bundles with
  | nil => rfl
  | cons b bs ih =>
    simp only [splitLargeBundles, List.flatMap_cons, txJoin, List.map_append,
      List.flatten_append] at *
    rw [ih]
    by_cases hb : b.transactions.length ≤ MAX_TRANSACTIONS_PER_BUNDLE
    · simp [hb]
    · simp only [hb, if_false, List.map_map]
      have : BuyBundle.transactions ∘ BuyBundle.mk = id := rfl
      simp [this, chunk5_flatten]

theorem splitLargeBundles_mem_le (bundles : List BuyBundle) (b : BuyBundle)
    (hb : b ∈ splitLargeBundles bundles) :
    b.transactions.length ≤ MAX_TRANSACTIONS_PER_BUNDLE := by
  simp only [splitLargeBundles, List.mem_flatMap] at hb
  obtain ⟨a, _, hmem⟩ := hb
  by_cases ha : a.transactions.length ≤ MAX_TRANSACTIONS_PER_BUNDLE
  · simp only [ha, if_true, List.mem_singleton] at hmem
    subst hmem; exact ha
  · simp only [ha, if_false, List.mem_map] at hmem
    obtain ⟨c, hc, rfl⟩ := hmem
    exact chunk5_mem_length_le a.transactions c hc

theorem splitLargeBundles_within_id (bundles : List BuyBundle)
    (h : ∀ b ∈ bundles, b.transactions.length ≤ MAX_TRANSACTIONS_PER_BUNDLE) :
    splitLargeBundles bundles = bundles := by
  induction bundles with
  | nil => rfl
  | cons b bs ih =>
    have hb := h b (List.mem_cons_self b bs)
    have hrest : splitLargeBundles bs = bs :=
      ih fun x hx => h x (List.mem_cons_of_mem b hx)
    simp only [splitLargeBundles, List.flatMap_cons, hb, if_true] at *
    simp [hrest]

/-- Relay response body (spec shape `{success, result?, error?}`), as parsed
by `response.json()` in `sendBundle`. -/
structure RelayResponse where
  success : Bool
  result : Option String
  error : Option String
  deriving Repr, DecidableEq

/-- Interface `WalletBuy` from the buy module. -/
structure WalletBuy where
  address : String
  privateKey : String
  deriving Repr, DecidableEq

/-- The subset of `BuyConfig` fields that steer the modelled dispatch paths.
`solAmount`, `amounts`, `slippageBps` and `jitoTipLamports` only shape the
request body of the preparation call and are folded into the preparation
oracle. `none` models an absent (`undefined`) optional field. -/
structure BuyConfig where
  tokenAddress : String
  protocol : String
  batchDelay : Option Nat
  singleDelay : Option Nat
  deriving Repr, DecidableEq

/-- JavaScript `x || d` on an optional number: `undefined` and `0` are both
falsy, so they yield the default. Models `config.singleDelay || 200` and
`config.batchDelay || 1000`. -/
def jsOrNat (x : Option Nat) (d : Nat) : Nat :=
  match x with
  | some v => if v = 0 then d else v
  | none => d

/-- Aggregate result of a dispatch mode (interface `BuyResult`); `result`
collects the values pushed onto `results` (each is the `data.result` field
returned by `sendBundle`). -/
structure BuyResult where
  success : Bool
  result : List (Option String)
  error : Option String
  deriving Repr, DecidableEq

/-- Oracles for the external collaborators and cryptographic steps.

* `baseUrlSet` — whether `(window as any).tradingServerUrl` is configured
  (checked by `sendBundle`).
* `prep` — `getPartiallyPreparedTransactions`, already normalized to a
  bundle list (the four historical response shapes, HTTP and application
  failures are folded into the oracle's `Except` outcome).
* `keyDecode` — `Keypair.fromSecretKey (bs58.decode privateKey)`, which may
  throw on a malformed key.
* `signTx` — decoding, deserializing, signer matching and signing of one
  opaque transaction blob inside `completeBundleSigning`; a throw models a
  `SigningError`.
* `fee` — `createDeveloperBuyFeeTransaction`: `ok (some f)` a built fee
  transaction, `ok none` the internal catch returning `null`, `error` a
  throw out of the helper.
* `relay` — the fetch + `response.json()` of `sendBundle`: the parsed body
  as a function of the submitted transactions, or a network-level throw. -/
structure Env where
  baseUrlSet : Bool
  prep : List String → Except Err (List BuyBundle)
  keyDecode : String → Except Err Unit
  signTx : Tx → Except Err Tx
  fee : Except Err (Option Tx)
  relay : List Tx → Except Err RelayResponse

/-- List map with exception propagation: models `Array.prototype.map` whose
callback may throw (the first throw aborts the whole map), and likewise
`Promise.all` over per-bundle signing promises (any rejection rejects the
whole batch before anything is sent). -/
def mapME {α β : Type} (f : α → Except Err β) : List α → Except Err (List β)
  | [] => .ok []
  | a :: as =>
    match f a with
    | .error e => .error e
    | .ok b =>
      match mapME f as with
      | .error e => .error e
      | .ok bs => .ok (b :: bs)

/-- Function `completeBundleSigning` of the buy module: sign every
transaction of the bundle (a single failure aborts the bundle), then for
the `pumpfun`/`bonk` protocols with a nonempty keypair list try to build
the developer-fee transaction and, if one is produced, prepend it; a `null`
or a throw from the fee helper leaves the signed main transactions
untouched.  (The source's guard for a malformed `transactions` property is
vacuous here since every `BuyBundle` carries a list.) -/
def completeBundleSigning (signTx : Tx → Except Err Tx)
    (fee : Except Err (Option Tx)) (protocol : String)
    (keypairsNonempty : Bool) (bundle : BuyBundle) : Except Err BuyBundle :=
  match mapME signTx bundle.transactions with
  | .error e => .error e
  | .ok signed =>
    if (protocol = "pumpfun" ∨ protocol = "bonk") ∧ keypairsNonempty then
      match fee with
      | .ok (some f) => .ok ⟨f :: signed⟩
      | _ => .ok ⟨signed⟩
    else .ok ⟨signed⟩

/-- Function `sendBundle` of the buy module: throws when the trading-server
URL is missing, otherwise POSTs the transactions and returns `data.result`
from the parsed response.  Note that neither the HTTP status nor the
body's `success` flag is inspected: an application-level rejection comes
back as a normal `ok` value. -/
def sendBundle (env : Env) (encodedBundle : List Tx) :
    Except Err (Option String) :=
  if env.baseUrlSet = false then
    .error ⟨"Trading server URL not configured. Please check your server connection."⟩
  else
    match env.relay encodedBundle with
    | .error e => .error e
    | .ok data => .ok data.result

/-- Observable steps of a dispatch run: a preparation-client call (with the
wallet addresses sent), a deliberate `setTimeout` delay in milliseconds, a
rate-limiter acquisition (`checkRateLimit`), and a relay submission with
the exact transaction list handed to `sendBundle`. -/
inductive Event where
  | prepCall (addrs : List String)
  | delayEv (ms : Nat)
  | rateAcquire
  | sendEv (txs : List Tx)
  deriving Repr, DecidableEq

/-- Addresses of the preparation calls occurring in a trace, in order. -/
def prepCallsOf (trace : List Event) : List (List String) :=
  trace.filterMap fun e =>
    match e with
    | .prepCall a => some a
    | _ => none

/-- Delays occurring in a trace, in order. -/
def delaysOf (trace : List Event) : List Nat :=
  trace.filterMap fun e =>
    match e with
    | .delayEv ms => some ms
    | _ => none

/-- Transaction lists handed to `sendBundle` in a trace, in order. -/
def sendsOf (trace : List Event) : List (List Tx) :=
  trace.filterMap fun e =>
    match e with
    | .sendEv txs => some txs
    | _ => none

/-- Inner loop of `executeBuySingleMode` over the prepared bundles of one
wallet: sign the bundle, and when the signed bundle is nonempty acquire a
rate-limit slot and relay it, pushing the relay's `result` value.  A throw
(signing or relay) aborts the wallet but keeps the results and events
already produced. Returns (wallet still successful?, pushed results,
events). -/
def sendLoopSingle (env : Env) (cfg : BuyConfig) :
    List BuyBundle → Bool × List (Option String) × List Event
  | [] => (true, [], [])
  | b :: rest =>
    match completeBundleSigning env.signTx env.fee cfg.protocol true b with
    | .error _ => (false, [], [])
    | .ok sb =>
      if 0 < sb.transactions.length then
        match sendBundle env sb.transactions with
        | .error _ => (false, [], [.rateAcquire, .sendEv sb.transactions])
        | .ok r =>
          let tail := sendLoopSingle env cfg rest
          (tail.1, r :: tail.2.1,
            .rateAcquire :: .sendEv sb.transactions :: tail.2.2)
      else
        sendLoopSingle env cfg rest

/-- Body of the per-wallet `try` block of `executeBuySingleMode`: one
preparation call for the single wallet's address, failure when the builder
throws or returns no bundles or the private key does not decode, otherwise
the sign-and-send loop.  Returns (wallet succeeded?, pushed results,
events). -/
def processWallet (env : Env) (cfg : BuyConfig) (w : WalletBuy) :
    Bool × List (Option String) × List Event :=
  let ev0 : List Event := [.prepCall [w.address]]
  match env.prep [w.address] with
  | .error _ => (false, [], ev0)
  | .ok bundles =>
    if bundles.isEmpty then (false, [], ev0)
    else
      match env.keyDecode w.privateKey with
      | .error _ => (false, [], ev0)
      | .ok _ =>
        let r := sendLoopSingle env cfg bundles
        (r.1, r.2.1, ev0 ++ r.2.2)

/-- Wallet loop of `executeBuySingleMode`: counts successful and failed
wallets, accumulates results and the event trace, and inserts the
`singleDelay` wait after each successfully processed wallet except the
last (the delay sits at the end of the `try` block, so a throwing wallet
skips it). -/
def singleGo (env : Env) (cfg : BuyConfig) (delay : Nat) :
    List WalletBuy → Nat × Nat × List (Option String) × List Event
  | [] => (0, 0, [], [])
  | w :: rest =>
    let r := processWallet env cfg w
    let tail := singleGo env cfg delay rest
    if r.1 then
      (tail.1 + 1, tail.2.1,
        r.2.1 ++ tail.2.2.1,
        r.2.2 ++ (if rest.isEmpty then [] else [.delayEv delay]) ++ tail.2.2.2)
    else
      (tail.1, tail.2.1 + 1, r.2.1 ++ tail.2.2.1, r.2.2 ++ tail.2.2.2)

/-- Function `executeBuySingleMode` of the buy module, instrumented with an
event trace.  Success means at least one wallet succeeded; when any wallet
failed the error string tallies failed and succeeded wallets. -/
def executeBuySingleMode (env : Env) (wallets : List WalletBuy)
    (cfg : BuyConfig) : BuyResult × List Event :=
  let singleDelay := jsOrNat cfg.singleDelay 200
  let r := singleGo env cfg singleDelay wallets
  ({ success := 0 < r.1,
     result := r.2.2.1,
     error :=
       if 0 < r.2.1 then
         some (toString r.2.1 ++ " wallets failed, " ++ toString r.1 ++ " succeeded")
       else none }, r.2.2.2)

/-- Whether a wallet's private key decodes (`Keypair.fromSecretKey` does
not throw). -/
def keyOk (env : Env) (w : WalletBuy) : Bool :=
  match env.keyDecode w.privateKey with
  | .ok _ => true
  | .error _ => false

/-- Send loop over the signed sub-bundles of one batch (`executeBuyBatchMode`):
every nonempty signed bundle is rate-limited and relayed in sequence; a
relay throw aborts the batch but keeps earlier results and events. -/
def sendLoopBatch (env : Env) :
    List BuyBundle → Bool × List (Option String) × List Event
  | [] => (true, [], [])
  | sb :: rest =>
    if 0 < sb.transactions.length then
      match sendBundle env sb.transactions with
      | .error _ => (false, [], [.rateAcquire, .sendEv sb.transactions])
      | .ok r =>
        let tail := sendLoopBatch env rest
        (tail.1, r :: tail.2.1,
          .rateAcquire :: .sendEv sb.transactions :: tail.2.2)
    else
      sendLoopBatch env rest

/-- Body of the per-batch `try` block of `executeBuyBatchMode`: one
preparation call for the whole group's addresses; the batch fails when the
builder throws or returns no bundles, when any key fails to decode, or
when any sub-bundle's signing rejects (`Promise.all`, before anything is
sent); otherwise the bundles are split, signed, and sent in sequence.
Returns (batch succeeded?, pushed results, events). -/
def processBatch (env : Env) (cfg : BuyConfig) (batch : List WalletBuy) :
    Bool × List (Option String) × List Event :=
  let ev0 : List Event := [.prepCall (batch.map WalletBuy.address)]
  match env.prep (batch.map WalletBuy.address) with
  | .error _ => (false, [], ev0)
  | .ok bundles =>
    if bundles.isEmpty then (false, [], ev0)
    else if ¬ batch.all (keyOk env) then (false, [], ev0)
    else
      match mapME
          (completeBundleSigning env.signTx env.fee cfg.protocol (!batch.isEmpty))
          (splitLargeBundles bundles) with
      | .error _ => (false, [], ev0)
      | .ok signedBundles =>
        let r := sendLoopBatch env signedBundles
        (r.1, r.2.1, ev0 ++ r.2.2)

/-- Batch loop of `executeBuyBatchMode`: counts successful and failed
batches and inserts the `batchDelay` wait after each successfully processed
batch except the last (the delay sits at the end of the `try` block, so a
throwing batch skips it). -/
def batchGo (env : Env) (cfg : BuyConfig) (delay : Nat) :
    List (List WalletBuy) → Nat × Nat × List (Option String) × List Event
  | [] => (0, 0, [], [])
  | b :: rest =>
    let r := processBatch env cfg b
    let tail := batchGo env cfg delay rest
    if r.1 then
      (tail.1 + 1, tail.2.1,
        r.2.1 ++ tail.2.2.1,
        r.2.2 ++ (if rest.isEmpty then [] else [.delayEv delay]) ++ tail.2.2.2)
    else
      (tail.1, tail.2.1 + 1, r.2.1 ++ tail.2.2.1, r.2.2 ++ tail.2.2.2)

/-- Function `executeBuyBatchMode` of the buy module, instrumented with an
event trace: wallets are partitioned into consecutive groups of
`batchSize = 5`, each group is prepared with one builder call, split,
signed, and relayed; `batchDelay` (default 1000 ms) separates consecutive
groups. -/
def executeBuyBatchMode (env : Env) (wallets : List WalletBuy)
    (cfg : BuyConfig) : BuyResult × List Event :=
  let batchDelay := jsOrNat cfg.batchDelay 1000
  let batches := chunk5 wallets
  let r := batchGo env cfg batchDelay batches
  ({ success := 0 < r.1,
     result := r.2.2.1,
     error :=
       if 0 < r.2.1 then
         some (toString r.2.1 ++ " batches failed, " ++ toString r.1 ++ " succeeded")
       else none }, r.2.2.2)

/-- Event blocks separated by a fixed delay: the delay occurs after every
block except the last. -/
def sepByDelay (d : Nat) : List (List Event) → List Event
  | [] => []
  | [es] => es
  | es :: rest => es ++ .delayEv d :: sepByDelay d rest

/-- Interface `VolumeStats` of the volume bot: the six running counters.
`totalVolume` is a JS number accumulating SOL amounts; the claims treated
here concern only resetting/copying, so it is carried as a natural number
of rounded ten-thousandths. -/
structure VolumeStats where
  totalTrades : Nat
  totalVolume : Nat
  successfulTrades : Nat
  failedTrades : Nat
  totalBuys : Nat
  totalSells : Nat
  deriving Repr, DecidableEq, Inhabited

/-- The `VolumeConfig` fields that steer the modelled lifecycle
transitions; trading-parameter fields (amounts, intervals, protocol,
sell percentage) only shape the timer callbacks, which are not part of
the lifecycle model. `duration` is in minutes as in the source. -/
structure VolumeConfig where
  tokenAddress : String
  wallets : List String
  duration : Nat
  deriving Repr, DecidableEq

/-- State of the `VolumeBot` class.  `intervalActive` stands for
`intervalId ≠ null` (the interval timer the class tracks).
`warmupTimers` and `durationTimers` count the pending `setTimeout`
callbacks armed by `startTradingLoop` (the 500 ms warm-up and the
duration-expiry timeout); the class keeps no handle to them, so they are
modelled as counters that only arming can increase. -/
structure BotState where
  config : Option VolumeConfig
  stats : VolumeStats
  intervalActive : Bool
  isRunning : Bool
  lastUsedWalletIndex : Int
  lastTradeType : Option Bool
  warmupTimers : Nat
  durationTimers : Nat
  deriving Repr, DecidableEq

/-- Fresh `VolumeBot` instance: all counters zero, no session, no timers. -/
def initialBotState : BotState :=
  { config := none
    stats := ⟨0, 0, 0, 0, 0, 0⟩
    intervalActive := false
    isRunning := false
    lastUsedWalletIndex := -1
    lastTradeType := none
    warmupTimers := 0
    durationTimers := 0 }

/-- Number of pending timers of a scheduler state: tracked interval plus
untracked warm-up and duration timeouts. -/
def pendingTimerCount (s : BotState) : Nat :=
  (if s.intervalActive then 1 else 0) + s.warmupTimers + s.durationTimers

/-- Method `startTradingLoop`: returns immediately when no config is set;
otherwise arms the 500 ms warm-up `setTimeout`, the trading interval, and —
when a positive duration is configured — the duration-expiry `setTimeout`.
(The timer callbacks themselves are not part of the lifecycle model.) -/
def startTradingLoop (s : BotState) : BotState :=
  match s.config with
  | none => s
  | some cfg =>
    { s with
      warmupTimers := s.warmupTimers + 1
      intervalActive := true
      durationTimers := s.durationTimers + (if 0 < cfg.duration then 1 else 0) }

/-- Method `VolumeBot.start`: throws when already running, throws when the
trading-server URL is not configured, otherwise stores the config, sets
the running flag and starts the trading loop.  The stats counters are not
touched. -/
def VolumeBot.start (s : BotState) (config : VolumeConfig)
    (tradingServerUrlSet : Bool) : Except Err BotState :=
  if s.isRunning then .error ⟨"Volume bot is already running"⟩
  else if tradingServerUrlSet = false then
    .error ⟨"Trading server URL not configured. Please check your server connection in settings."⟩
  else
    .ok (startTradingLoop { s with config := some config, isRunning := true })

/-- Method `VolumeBot.stop`: clears the interval timer (if any), clears the
running flag and discards the config.  The warm-up and duration-expiry
timeouts are not referenced by the method and stay pending. -/
def VolumeBot.stop (s : BotState) : BotState :=
  { s with intervalActive := false, isRunning := false, config := none }

/-- Idle scheduler state: not running, no tracked interval, no config. -/
def isIdle (s : BotState) : Prop :=
  s.isRunning = false ∧ s.intervalActive = false ∧ s.config = none

/-- Method `VolumeBot.getStats`: returns a copy of the stats object
(`{ ...this.stats }`) and leaves the instance untouched. -/
def getStats (s : BotState) : VolumeStats × BotState :=
  (s.stats, s)

/-- Heap-level model of `getStats`'s spread copy: with JS objects as heap
cells (`List VolumeStats` addressed by index) and the instance holding a
reference `ref` to its stats object, `{ ...this.stats }` allocates a fresh
cell holding the current field values and returns its address. -/
def getStatsAlloc (heap : List VolumeStats) (ref : Nat) :
    Nat × List VolumeStats :=
  (heap.length, heap ++ [heap.getD ref default])

/-- Substring test on character lists: the pattern starts at some position. -/
def containsSubList (pat : List Char) : List Char → Bool
  | [] => pat.isEmpty
  | a :: rest => pat.isPrefixOf (a :: rest) || containsSubList pat rest

/-- Substring test on strings, modelling JS `String.prototype.includes`. -/
def containsSub (s pat : String) : Bool :=
  containsSubList pat.data s.data

/-- Classification of a recoverable failure in `executeWithRetry`: the
error message mentions `fetch`, `network`, `ECONNREFUSED` or `timeout`. -/
def isNetworkError (e : Err) : Bool :=
  containsSub e.message "fetch" || containsSub e.message "network" ||
    containsSub e.message "ECONNREFUSED" || containsSub e.message "timeout"

/-- Retry loop of `VolumeBot.executeWithRetry`. `op k` is the outcome of
the k-th invocation of the operation (attempts are numbered from 1 as in
the source).  The delays waited between attempts are returned alongside
the final outcome.  `fuel` counts the loop iterations still allowed; the
entry point hands it `maxRetries`, which is exact: the loop breaks at
`attempt = maxRetries`, so the fuel-exhausted branch is unreachable for
`maxRetries ≥ 1`. -/
def retryGo {α : Type} (op : Nat → Except Err α) (maxRetries : Nat) :
    Nat → Nat → List Nat → Except Err α × List Nat
  | _, 0, delays => (.error ⟨"loop exhausted"⟩, delays)
  | attempt, fuel + 1, delays =>
    match op attempt with
    | .ok v => (.ok v, delays)
    | .error e =>
      if attempt = maxRetries ∨ isNetworkError e = false then
        (.error e, delays)
      else
        retryGo op maxRetries (attempt + 1) fuel
          (delays ++ [min (1000 * 2 ^ (attempt - 1)) 5000])

/-- Method `VolumeBot.executeWithRetry` (default `maxRetries = 3`): retry
the operation while the failure is a transient network condition, waiting
`min (1000 * 2 ^ (attempt - 1)) 5000` milliseconds after failed attempt
`attempt`; the last error propagates after `maxRetries` failures or on the
first non-transient failure. -/
def executeWithRetry {α : Type} (op : Nat → Except Err α)
    (maxRetries : Nat) : Except Err α × List Nat :=
  retryGo op maxRetries 1 maxRetries []

/-! ### Trace lemmas -/

@[simp] theorem prepCallsOf_append (a b : List Event) :
    prepCallsOf (a ++ b) = prepCallsOf a ++ prepCallsOf b := by
  simp [prepCallsOf]

@[simp] theorem delaysOf_append (a b : List Event) :
    delaysOf (a ++ b) = delaysOf a ++ delaysOf b := by
  simp [delaysOf]

@[simp] theorem sendsOf_append (a b : List Event) :
    sendsOf (a ++ b) = sendsOf a ++ sendsOf b := by
  simp [sendsOf]

@[simp] theorem prepCallsOf_nil : prepCallsOf [] = [] := rfl

@[simp] theorem delaysOf_nil : delaysOf [] = [] := rfl

@[simp] theorem sendsOf_nil : sendsOf [] = [] := rfl

@[simp] theorem prepCallsOf_cons_prep (a : List String) (tr : List Event) :
    prepCallsOf (.prepCall a :: tr) = a :: prepCallsOf tr := rfl

@[simp] theorem prepCallsOf_cons_delay (ms : Nat) (tr : List Event) :
    prepCallsOf (.delayEv ms :: tr) = prepCallsOf tr := rfl

@[simp] theorem prepCallsOf_cons_rate (tr : List Event) :
    prepCallsOf (.rateAcquire :: tr) = prepCallsOf tr := rfl

@[simp] theorem prepCallsOf_cons_send (txs : List Tx) (tr : List Event) :
    prepCallsOf (.sendEv txs :: tr) = prepCallsOf tr := rfl

@[simp] theorem delaysOf_cons_prep (a : List String) (tr : List Event) :
    delaysOf (.prepCall a :: tr) = delaysOf tr := rfl

@[simp] theorem delaysOf_cons_delay (ms : Nat) (tr : List Event) :
    delaysOf (.delayEv ms :: tr) = ms :: delaysOf tr := rfl

@[simp] theorem delaysOf_cons_rate (tr : List Event) :
    delaysOf (.rateAcquire :: tr) = delaysOf tr := rfl

@[simp] theorem delaysOf_cons_send (txs : List Tx) (tr : List Event) :
    delaysOf (.sendEv txs :: tr) = delaysOf tr := rfl

@[simp] theorem sendsOf_cons_prep (a : List String) (tr : List Event) :
    sendsOf (.prepCall a :: tr) = sendsOf tr := rfl

@[simp] theorem sendsOf_cons_delay (ms : Nat) (tr : List Event) :
    sendsOf (.delayEv ms :: tr) = sendsOf tr := rfl

@[simp] theorem sendsOf_cons_rate (tr : List Event) :
    sendsOf (.rateAcquire :: tr) = sendsOf tr := rfl

@[simp] theorem sendsOf_cons_send (txs : List Tx) (tr : List Event) :
    sendsOf (.sendEv txs :: tr) = txs :: sendsOf tr := rfl

theorem sendLoopSingle_prepCalls (env : Env) (cfg : BuyConfig)
    (bs : List BuyBundle) :
    prepCallsOf (sendLoopSingle env cfg bs).2.2 = [] := by
  induction bs with
  | nil => rfl
  | cons b rest ih =>
    simp only [sendLoopSingle]
    cases completeBundleSigning env.signTx env.fee cfg.protocol true b with
    | error e => rfl
    | ok sb =>
      by_cases hl : 0 < sb.transactions.length
      · simp only [hl, if_true]
        cases sendBundle env sb.transactions with
        | error e => rfl
        | ok r => simpa [prepCallsOf] using ih
      · simpa [hl] using ih

theorem processWallet_prepCalls (env : Env) (cfg : BuyConfig) (w : WalletBuy) :
    prepCallsOf (processWallet env cfg w).2.2 = [[w.address]] := by
  simp only [processWallet]
  cases env.prep [w.address] with
  | error e => rfl
  | ok bundles =>
    by_cases hb : bundles.isEmpty
    · simp [hb, prepCallsOf]
    · simp only [hb, if_false]
      cases env.keyDecode w.privateKey with
      | error e => rfl
      | ok u =>
        simp [sendLoopSingle_prepCalls]

theorem singleGo_counts (env : Env) (cfg : BuyConfig) (d : Nat)
    (ws : List WalletBuy) :
    (singleGo env cfg d ws).1 = ws.countP (fun w => (processWallet env cfg w).1)
    ∧ (singleGo env cfg d ws).2.1 =
        ws.countP (fun w => !(processWallet env cfg w).1) := by
  induction ws with
  | nil => exact ⟨rfl, rfl⟩
  | cons w rest ih =>
    simp only [singleGo, List.countP_cons]
    cases hw : (processWallet env cfg w).1 <;>
      simp [hw, ih.1, ih.2]

theorem singleGo_prepCalls (env : Env) (cfg : BuyConfig) (d : Nat)
    (ws : List WalletBuy) :
    prepCallsOf (singleGo env cfg d ws).2.2.2 =
      ws.map fun w => [w.address] := by
  induction ws with
  | nil => rfl
  | cons w rest ih =>
    simp only [singleGo]
    cases hw : (processWallet env cfg w).1 <;>
      cases hrest : rest.isEmpty <;>
        simp [hw, hrest, processWallet_prepCalls, ih]

theorem sendLoopBatch_prepCalls (env : Env) (bs : List BuyBundle) :
    prepCallsOf (sendLoopBatch env bs).2.2 = [] := by
  induction bs with
  | nil => rfl
  | cons sb rest ih =>
    simp only [sendLoopBatch]
    by_cases hl : 0 < sb.transactions.length
    · simp only [hl, if_true]
      cases sendBundle env sb.transactions with
      | error e => rfl
      | ok r => simpa using ih
    · simpa [hl] using ih

theorem processBatch_prepCalls (env : Env) (cfg : BuyConfig)
    (batch : List WalletBuy) :
    prepCallsOf (processBatch env cfg batch).2.2 =
      [batch.map WalletBuy.address] := by
  simp only [processBatch]
  cases env.prep (batch.map WalletBuy.address) with
  | error e => rfl
  | ok bundles =>
    by_cases hb : bundles.isEmpty
    · simp [hb, prepCallsOf]
    · simp only [hb, if_false]
      by_cases hk : batch.all (keyOk env)
      · simp only [hk, not_true, if_false, ite_false, ite_true]
        cases mapME
            (completeBundleSigning env.signTx env.fee cfg.protocol (!batch.isEmpty))
            (splitLargeBundles bundles) with
        | error e => rfl
        | ok sbs => simp [sendLoopBatch_prepCalls]
      · simp [hk, prepCallsOf]

theorem batchGo_counts (env : Env) (cfg : BuyConfig) (d : Nat)
    (batches : List (List WalletBuy)) :
    (batchGo env cfg d batches).1 =
      batches.countP (fun b => (processBatch env cfg b).1)
    ∧ (batchGo env cfg d batches).2.1 =
        batches.countP (fun b => !(processBatch env cfg b).1) := by
  induction batches with
  | nil => exact ⟨rfl, rfl⟩
  | cons b rest ih =>
    simp only [batchGo, List.countP_cons]
    cases hb : (processBatch env cfg b).1 <;>
      simp [hb, ih.1, ih.2]

theorem batchGo_prepCalls (env : Env) (cfg : BuyConfig) (d : Nat)
    (batches : List (List WalletBuy)) :
    prepCallsOf (batchGo env cfg d batches).2.2.2 =
      batches.map fun b => b.map WalletBuy.address := by
  induction batches with
  | nil => rfl
  | cons b rest ih =>
    simp only [batchGo]
    cases hb : (processBatch env cfg b).1 <;>
      cases hrest : rest.isEmpty <;>
        simp [hb, hrest, processBatch_prepCalls, ih]

theorem batchGo_cons_true (env : Env) (cfg : BuyConfig) (d : Nat)
    (b : List WalletBuy) (rest : List (List WalletBuy))
    (hb : (processBatch env cfg b).1 = true) :
    batchGo env cfg d (b :: rest) =
      ((batchGo env cfg d rest).1 + 1, (batchGo env cfg d rest).2.1,
        (processBatch env cfg b).2.1 ++ (batchGo env cfg d rest).2.2.1,
        (processBatch env cfg b).2.2 ++
          ((if rest.isEmpty then [] else [Event.delayEv d]) ++
            (batchGo env cfg d rest).2.2.2)) := by
  simp only [batchGo, hb, if_true, List.append_assoc]

theorem batchGo_cons_false (env : Env) (cfg : BuyConfig) (d : Nat)
    (b : List WalletBuy) (rest : List (List WalletBuy))
    (hb : (processBatch env cfg b).1 = false) :
    batchGo env cfg d (b :: rest) =
      ((batchGo env cfg d rest).1, (batchGo env cfg d rest).2.1 + 1,
        (processBatch env cfg b).2.1 ++ (batchGo env cfg d rest).2.2.1,
        (processBatch env cfg b).2.2 ++ (batchGo env cfg d rest).2.2.2) := by
  simp only [batchGo, hb, if_false, Bool.false_eq_true]

theorem batchGo_trace_all_success (env : Env) (cfg : BuyConfig) (d : Nat)
    (batches : List (List WalletBuy))
    (h : ∀ b ∈ batches, (processBatch env cfg b).1 = true) :
    (batchGo env cfg d batches).2.2.2 =
      sepByDelay d (batches.map fun b => (processBatch env cfg b).2.2) := by
  induction batches with
  | nil => rfl
  | cons b rest ih =>
    have hb := h b (List.mem_cons_self b rest)
    have hrest := ih fun x hx => h x (List.mem_cons_of_mem b hx)
    rw [batchGo_cons_true env cfg d b rest hb]
    cases rest with
    | nil => simp [batchGo, sepByDelay]
    | cons b2 rest2 =>
      rw [show sepByDelay d (((b :: b2 :: rest2).map fun x =>
            (processBatch env cfg x).2.2)) =
          (processBatch env cfg b).2.2 ++ .delayEv d ::
            sepByDelay d ((b2 :: rest2).map fun x =>
              (processBatch env cfg x).2.2) from rfl]
      simp [hrest]

theorem mapME_ok_length {α β : Type} (f : α → Except Err β) (l : List α)
    (l' : List β) (h : mapME f l = .ok l') : l'.length = l.length := by
  induction l generalizing l' with
  | nil =>
    simp only [mapME] at h
    cases h
    rfl
  | cons a as ih =>
    simp only [mapME] at h
    cases hf : f a with
    | error e => rw [hf] at h; cases h
    | ok b =>
      rw [hf] at h
      cases hrest : mapME f as with
      | error e => rw [hrest] at h; cases h
      | ok bs =>
        rw [hrest] at h
        cases h
        simp [ih bs hrest]

theorem mapME_ok_mem {α β : Type} (f : α → Except Err β) (l : List α)
    (l' : List β) (h : mapME f l = .ok l') :
    ∀ b ∈ l', ∃ a ∈ l, f a = .ok b := by
  induction l generalizing l' with
  | nil =>
    simp only [mapME] at h
    cases h
    simp
  | cons a as ih =>
    simp only [mapME] at h
    cases hf : f a with
    | error e => rw [hf] at h; cases h
    | ok b =>
      rw [hf] at h
      cases hrest : mapME f as with
      | error e => rw [hrest] at h; cases h
      | ok bs =>
        rw [hrest] at h
        cases h
        intro x hx
        rcases List.mem_cons.mp hx with hx | hx
        · exact ⟨a, List.mem_cons_self a as, hx ▸ hf⟩
        · obtain ⟨a2, ha2, hfa2⟩ := ih bs hrest x hx
          exact ⟨a2, List.mem_cons_of_mem a ha2, hfa2⟩

theorem completeBundleSigning_shape (signTx : Tx → Except Err Tx)
    (fee : Except Err (Option Tx)) (protocol : String)
    (keypairsNonempty : Bool) (b : BuyBundle) (sb : BuyBundle)
    (signed : List Tx)
    (hs : mapME signTx b.transactions = .ok signed)
    (h : completeBundleSigning signTx fee protocol keypairsNonempty b = .ok sb) :
    sb.transactions = signed
    ∨ ∃ f, fee = .ok (some f) ∧ sb.transactions = f :: signed := by
  simp only [completeBundleSigning, hs] at h
  by_cases hp : (protocol = "pumpfun" ∨ protocol = "bonk") ∧ keypairsNonempty = true
  · simp only [hp, if_true] at h
    cases hfee : fee with
    | error e =>
      rw [hfee] at h
      cases h
      exact Or.inl rfl
    | ok o =>
      cases o with
      | none =>
        rw [hfee] at h
        cases h
        exact Or.inl rfl
      | some f =>
        rw [hfee] at h
        cases h
        exact Or.inr ⟨f, rfl, rfl⟩
  · simp only [hp, if_false] at h
    cases h
    exact Or.inl rfl

theorem completeBundleSigning_length (signTx : Tx → Except Err Tx)
    (fee : Except Err (Option Tx)) (protocol : String)
    (keypairsNonempty : Bool) (b : BuyBundle) (sb : BuyBundle)
    (h : completeBundleSigning signTx fee protocol keypairsNonempty b = .ok sb) :
    sb.transactions.length ≤ b.transactions.length + 1 := by
  cases hs : mapME signTx b.transactions with
  | error e => simp [completeBundleSigning, hs] at h
  | ok signed =>
    have hlen := mapME_ok_length signTx b.transactions signed hs
    rcases completeBundleSigning_shape signTx fee protocol keypairsNonempty
        b sb signed hs h with
      hsh | ⟨f, _, hsh⟩ <;> simp [hsh, hlen]

theorem sendLoopBatch_sends (env : Env) (bs : List BuyBundle) :
    ∀ txs ∈ sendsOf (sendLoopBatch env bs).2.2,
      ∃ sb ∈ bs, txs = sb.transactions := by
  induction bs with
  | nil =>
    intro txs htxs
    simp [sendLoopBatch] at htxs
  | cons sb rest ih =>
    simp only [sendLoopBatch]
    by_cases hl : 0 < sb.transactions.length
    · simp only [hl, if_true]
      cases sendBundle env sb.transactions with
      | error e =>
        intro txs htxs
        simp only [sendsOf_cons_rate, sendsOf_cons_send, sendsOf_nil,
          List.mem_singleton] at htxs
        exact ⟨sb, List.mem_cons_self sb rest, htxs⟩
      | ok r =>
        intro txs htxs
        simp only [sendsOf_cons_rate, sendsOf_cons_send,
          List.mem_cons] at htxs
        rcases htxs with h | h
        · exact ⟨sb, List.mem_cons_self sb rest, h⟩
        · obtain ⟨sb2, hsb2, hts⟩ := ih txs h
          exact ⟨sb2, List.mem_cons_of_mem sb hsb2, hts⟩
    · simp only [hl, if_false]
      intro txs htxs
      obtain ⟨sb2, hsb2, hts⟩ := ih txs htxs
      exact ⟨sb2, List.mem_cons_of_mem sb hsb2, hts⟩

theorem processBatch_sends_le (env : Env) (cfg : BuyConfig)
    (batch : List WalletBuy) :
    ∀ txs ∈ sendsOf (processBatch env cfg batch).2.2,
      txs.length ≤ MAX_TRANSACTIONS_PER_BUNDLE + 1 := by
  simp only [processBatch]
  cases env.prep (batch.map WalletBuy.address) with
  | error e => simp [sendsOf]
  | ok bundles =>
    by_cases hb : bundles.isEmpty
    · simp [hb, sendsOf]
    · simp only [hb, if_false]
      by_cases hk : batch.all (keyOk env)
      · simp only [hk, not_true, if_false, ite_false, ite_true]
        cases hsign : mapME
            (completeBundleSigning env.signTx env.fee cfg.protocol (!batch.isEmpty))
            (splitLargeBundles bundles) with
        | error e => simp [sendsOf]
        | ok sbs =>
          intro txs htxs
          simp only [sendsOf_append, prepCallsOf_nil] at htxs
          have htxs2 : txs ∈ sendsOf (sendLoopBatch env sbs).2.2 := by
            simpa [sendsOf] using htxs
          obtain ⟨sb, hsb, rfl⟩ := sendLoopBatch_sends env sbs txs htxs2
          obtain ⟨b0, hb0, hsb0⟩ :=
            mapME_ok_mem _ (splitLargeBundles bundles) sbs hsign sb hsb
          have h1 := completeBundleSigning_length env.signTx env.fee
            cfg.protocol (!batch.isEmpty) b0 sb hsb0
          have h2 := splitLargeBundles_mem_le bundles b0 hb0
          omega
      · simp [hk, sendsOf]

theorem batchGo_sends_le (env : Env) (cfg : BuyConfig) (d : Nat)
    (batches : List (List WalletBuy)) :
    ∀ txs ∈ sendsOf (batchGo env cfg d batches).2.2.2,
      txs.length ≤ MAX_TRANSACTIONS_PER_BUNDLE + 1 := by
  induction batches with
  | nil =>
    intro txs htxs
    simp [batchGo] at htxs
  | cons b rest ih =>
    intro txs htxs
    cases hb : (processBatch env cfg b).1
    · rw [batchGo_cons_false env cfg d b rest hb] at htxs
      simp only [sendsOf_append, List.mem_append] at htxs
      rcases htxs with h | h
      · exact processBatch_sends_le env cfg b txs h
      · exact ih txs h
    · rw [batchGo_cons_true env cfg d b rest hb] at htxs
      simp only [sendsOf_append, List.mem_append] at htxs
      rcases htxs with h | h | h
      · exact processBatch_sends_le env cfg b txs h
      · cases hrest : rest.isEmpty <;> simp [hrest] at h
      · exact ih txs h

/-! ### Claims -/

/-- C7: in single mode a wallet whose preparation, signing, or relay step
throws is counted as a failed wallet and processing continues with the
remaining wallets (every wallet still receives its own preparation call);
`DispatchResult.success` is true iff at least one wallet succeeded; and
whenever any wallet failed the error string tallies the failed and
succeeded wallet counts. -/
theorem C7_single_mode_partial_failure (env : Env) (ws : List WalletBuy)
    (cfg : BuyConfig) :
    ((executeBuySingleMode env ws cfg).1.success = true ↔
      ∃ w ∈ ws, (processWallet env cfg w).1 = true)
    ∧ (∀ w e, env.prep [w.address] = .error e →
        (processWallet env cfg w).1 = false)
    ∧ prepCallsOf (executeBuySingleMode env ws cfg).2 =
        (ws.map fun w => [w.address])
    ∧ (0 < ws.countP (fun w => !(processWallet env cfg w).1) →
        (executeBuySingleMode env ws cfg).1.error =
          some (toString (ws.countP fun w => !(processWallet env cfg w).1) ++
            " wallets failed, " ++
            toString (ws.countP fun w => (processWallet env cfg w).1) ++
            " succeeded"))
    ∧ (ws.countP (fun w => !(processWallet env cfg w).1) = 0 →
        (executeBuySingleMode env ws cfg).1.error = none) := by
  refine ⟨?_, ?_, ?_, ?_, ?_⟩
  · simp only [executeBuySingleMode, decide_eq_true_eq,
      (singleGo_counts env cfg (jsOrNat cfg.singleDelay 200) ws).1]
    exact List.countP_pos_iff
  · intro w e he
    simp [processWallet, he]
  · simpa only [executeBuySingleMode] using
      singleGo_prepCalls env cfg (jsOrNat cfg.singleDelay 200) ws
  · intro hf
    simp only [executeBuySingleMode,
      (singleGo_counts env cfg (jsOrNat cfg.singleDelay 200) ws).1,
      (singleGo_counts env cfg (jsOrNat cfg.singleDelay 200) ws).2]
    simp [hf]
  · intro hf
    simp only [executeBuySingleMode,
      (singleGo_counts env cfg (jsOrNat cfg.singleDelay 200) ws).2]
    simp [hf]

/-- Environment for the C7 witness: preparation fails for the wallet at
address `bad` and produces one single-transaction bundle otherwise; keys
decode, signing echoes the blob, no fee transaction, relay succeeds. -/
def c7Env : Env :=
  { baseUrlSet := true
    prep := fun addrs =>
      if addrs = ["bad"] then .error ⟨"HTTP error! Status: 500"⟩
      else .ok [⟨["t1"]⟩]
    keyDecode := fun _ => .ok ()
    signTx := fun t => .ok t
    fee := .ok none
    relay := fun _ => .ok ⟨true, some "sig", none⟩ }

def c7Ws : List WalletBuy := [⟨"bad", "kb"⟩, ⟨"good", "kg"⟩]

def c7Cfg : BuyConfig := ⟨"tok", "auto", none, none⟩

/-- Witness for C7 at a concrete two-wallet run where the first wallet's
preparation throws and the second succeeds. -/
theorem C7_single_mode_partial_failure_witness :
    ((executeBuySingleMode c7Env c7Ws c7Cfg).1.success = true ↔
      ∃ w ∈ c7Ws, (processWallet c7Env c7Cfg w).1 = true)
    ∧ (processWallet c7Env c7Cfg ⟨"bad", "kb"⟩).1 = false
    ∧ prepCallsOf (executeBuySingleMode c7Env c7Ws c7Cfg).2 =
        [["bad"], ["good"]]
    ∧ (executeBuySingleMode c7Env c7Ws c7Cfg).1.error =
        some (toString (c7Ws.countP fun w => !(processWallet c7Env c7Cfg w).1) ++
          " wallets failed, " ++
          toString (c7Ws.countP fun w => (processWallet c7Env c7Cfg w).1) ++
          " succeeded") := by
  have h := C7_single_mode_partial_failure c7Env c7Ws c7Cfg
  exact ⟨h.1, h.2.1 ⟨"bad", "kb"⟩ ⟨"HTTP error! Status: 500"⟩ rfl,
    h.2.2.1, h.2.2.2.1 (by decide)⟩

/-- Environment for C2: the relay answers every submission with an
application-level error (`success: false` with an error string), while
preparation, key decoding and signing succeed. -/
def c2Env : Env :=
  { baseUrlSet := true
    prep := fun _ => .ok [⟨["t1"]⟩]
    keyDecode := fun _ => .ok ()
    signTx := fun t => .ok t
    fee := .ok none
    relay := fun _ => .ok ⟨false, none, some "bundle rejected"⟩ }

def c2Ws : List WalletBuy := [⟨"a1", "k1"⟩, ⟨"a2", "k2"⟩]

/-- C2 (code bug): with the relay answering every submission with a
response whose `success` flag is false, `sendBundle` still returns
normally — it never inspects the flag — so every wallet is counted as
succeeded and dispatch reports `success = true` with no error string,
instead of the claimed `success = false` with a 100% failure tally. -/
theorem C2_relay_rejection_miscounted :
    (∀ txs, c2Env.relay txs = .ok ⟨false, none, some "bundle rejected"⟩)
    ∧ (∀ txs, sendBundle c2Env txs = .ok none)
    ∧ (executeBuySingleMode c2Env c2Ws c7Cfg).1 =
        { success := true, result := [none, none], error := none } := by
  refine ⟨fun txs => rfl, fun txs => rfl, ?_⟩
  decide


/-- C6: in batch mode with group size `g = 5`, for every wallet list the
orchestrator makes exactly `ceil (|W| / 5)` (written `(|W| + 4) / 5`)
preparation-client calls, one per consecutive group of wallets; and when
every group is processed successfully the run's trace is the per-group
event blocks separated by one `batchDelay` (default 1000 ms) wait after
each group except the last. -/
theorem C6_batch_grouping (env : Env) (ws : List WalletBuy)
    (cfg : BuyConfig) :
    prepCallsOf (executeBuyBatchMode env ws cfg).2 =
      ((chunk5 ws).map fun b => b.map WalletBuy.address)
    ∧ (prepCallsOf (executeBuyBatchMode env ws cfg).2).length =
        (ws.length + 4) / 5
    ∧ ((∀ b ∈ chunk5 ws, (processBatch env cfg b).1 = true) →
        (executeBuyBatchMode env ws cfg).2 =
          sepByDelay (jsOrNat cfg.batchDelay 1000)
            ((chunk5 ws).map fun b => (processBatch env cfg b).2.2)) := by
  refine ⟨?_, ?_, ?_⟩
  · simpa only [executeBuyBatchMode] using
      batchGo_prepCalls env cfg (jsOrNat cfg.batchDelay 1000) (chunk5 ws)
  · have h1 : prepCallsOf (executeBuyBatchMode env ws cfg).2 =
        ((chunk5 ws).map fun b => b.map WalletBuy.address) := by
      simpa only [executeBuyBatchMode] using
        batchGo_prepCalls env cfg (jsOrNat cfg.batchDelay 1000) (chunk5 ws)
    rw [h1, List.length_map, chunk5_length]
  · intro h
    simpa only [executeBuyBatchMode] using
      batchGo_trace_all_success env cfg (jsOrNat cfg.batchDelay 1000)
        (chunk5 ws) h

/-- Environment in which every collaborator succeeds: one single-transaction
bundle per preparation call, keys decode, signing echoes, no fee
transaction, relay acknowledges. -/
def okEnv : Env :=
  { baseUrlSet := true
    prep := fun _ => .ok [⟨["t1"]⟩]
    keyDecode := fun _ => .ok ()
    signTx := fun t => .ok t
    fee := .ok none
    relay := fun _ => .ok ⟨true, some "sig", none⟩ }

def c6Ws : List WalletBuy := List.replicate 10 ⟨"a", "k"⟩

/-- Witness for C6: ten wallets in batch mode give exactly two preparation
calls and one batch delay inserted between the two groups. -/
theorem C6_batch_grouping_witness :
    (prepCallsOf (executeBuyBatchMode okEnv c6Ws c7Cfg).2).length = 2
    ∧ (executeBuyBatchMode okEnv c6Ws c7Cfg).2 =
        sepByDelay (jsOrNat c7Cfg.batchDelay 1000)
          ((chunk5 c6Ws).map fun b => (processBatch okEnv c7Cfg b).2.2) := by
  have h := C6_batch_grouping okEnv c6Ws c7Cfg
  refine ⟨?_, h.2.2 (by decide)⟩
  rw [h.2.1]
  decide

/-- Environment for the C1 counterexample: the builder returns one bundle
already at the five-transaction cap and the fee helper produces a fee
transaction (protocol `pumpfun`), so signing prepends a sixth
transaction after splitting has run. -/
def c1Env : Env :=
  { baseUrlSet := true
    prep := fun _ => .ok [⟨["t1", "t2", "t3", "t4", "t5"]⟩]
    keyDecode := fun _ => .ok ()
    signTx := fun t => .ok t
    fee := .ok (some "feeTx")
    relay := fun _ => .ok ⟨true, some "sig", none⟩ }

def c1Cfg : BuyConfig := ⟨"tok", "pumpfun", none, none⟩

/-- C1 counterexample: in batch mode with protocol `pumpfun`, a prepared
bundle of five transactions is split (left untouched, already at the cap)
and then signing prepends the developer-fee transaction, so `sendBundle`
is handed a six-transaction bundle, exceeding
`MAX_TRANSACTIONS_PER_BUNDLE`. -/
theorem C1_counterexample :
    sendsOf (executeBuyBatchMode c1Env [⟨"a1", "k1"⟩] c1Cfg).2 =
      [["feeTx", "t1", "t2", "t3", "t4", "t5"]]
    ∧ MAX_TRANSACTIONS_PER_BUNDLE <
        (["feeTx", "t1", "t2", "t3", "t4", "t5"] : List Tx).length := by
  decide

/-- C1 amended: every bundle handed to `sendBundle` by batch-mode dispatch
has at most `MAX_TRANSACTIONS_PER_BUNDLE + 1` transactions (the splitter's
cap plus the optionally injected fee transaction), and whenever the fee
transaction has been injected into a signed bundle it is the bundle's
first transaction. -/
theorem C1_amended_bundle_size (env : Env) (ws : List WalletBuy)
    (cfg : BuyConfig) :
    (∀ txs ∈ sendsOf (executeBuyBatchMode env ws cfg).2,
        txs.length ≤ MAX_TRANSACTIONS_PER_BUNDLE + 1)
    ∧ (∀ (signTx : Tx → Except Err Tx) (fee : Except Err (Option Tx))
        (protocol : String) (kp : Bool) (b sb : BuyBundle) (signed : List Tx),
        mapME signTx b.transactions = .ok signed →
        completeBundleSigning signTx fee protocol kp b = .ok sb →
        sb.transactions = signed
        ∨ ∃ f, fee = .ok (some f) ∧ sb.transactions = f :: signed) := by
  constructor
  · intro txs h
    exact batchGo_sends_le env cfg (jsOrNat cfg.batchDelay 1000) (chunk5 ws)
      txs (by simpa only [executeBuyBatchMode] using h)
  · exact fun signTx fee protocol kp b sb signed hs h =>
      completeBundleSigning_shape signTx fee protocol kp b sb signed hs h

/-- Witness for the amended C1: the six-transaction bundle of the
counterexample run satisfies the relaxed cap, and a concrete signing run
with a produced fee transaction puts it first. -/
theorem C1_amended_witness :
    (["feeTx", "t1", "t2", "t3", "t4", "t5"] : List Tx).length ≤
      MAX_TRANSACTIONS_PER_BUNDLE + 1
    ∧ ((⟨["feeTx", "s1"]⟩ : BuyBundle).transactions = ["s1"]
        ∨ ∃ f, (.ok (some "feeTx") : Except Err (Option Tx)) = .ok (some f)
            ∧ (⟨["feeTx", "s1"]⟩ : BuyBundle).transactions = f :: ["s1"]) := by
  have h := C1_amended_bundle_size c1Env [⟨"a1", "k1"⟩] c1Cfg
  refine ⟨h.1 ["feeTx", "t1", "t2", "t3", "t4", "t5"] (by decide), ?_⟩
  exact h.2 (fun t => .ok t) (.ok (some "feeTx")) "pumpfun" true
    ⟨["s1"]⟩ ⟨["feeTx", "s1"]⟩ ["s1"] rfl rfl

/-- C5: bundle splitting is order-preserving and size-bounded — the
concatenated output transactions equal the concatenated input
transactions, every output bundle is within `MAX_TRANSACTIONS_PER_BUNDLE`,
and bundles already within the limit pass through unchanged. -/
theorem C5_splitter_contract (bundles : List BuyBundle) :
    txJoin (splitLargeBundles bundles) = txJoin bundles
    ∧ (∀ b ∈ splitLargeBundles bundles,
        b.transactions.length ≤ MAX_TRANSACTIONS_PER_BUNDLE)
    ∧ ((∀ b ∈ bundles, b.transactions.length ≤ MAX_TRANSACTIONS_PER_BUNDLE) →
        splitLargeBundles bundles = bundles) :=
  ⟨splitLargeBundles_txJoin bundles,
    fun b hb => splitLargeBundles_mem_le bundles b hb,
    splitLargeBundles_within_id bundles⟩

def c5Bundles : List BuyBundle := [⟨["a", "b", "c", "d", "e", "f", "g"]⟩, ⟨["h"]⟩]

/-- Witness for C5: a seven-transaction bundle plus a singleton bundle. -/
theorem C5_splitter_contract_witness :
    txJoin (splitLargeBundles c5Bundles) = txJoin c5Bundles
    ∧ (⟨["a", "b", "c", "d", "e"]⟩ : BuyBundle).transactions.length ≤
        MAX_TRANSACTIONS_PER_BUNDLE
    ∧ splitLargeBundles [⟨["h"]⟩] = [⟨["h"]⟩] := by
  have h := C5_splitter_contract c5Bundles
  have h2 := C5_splitter_contract [⟨["h"]⟩]
  exact ⟨h.1, h.2.1 ⟨["a", "b", "c", "d", "e"]⟩ (by decide),
    h2.2.2 (by decide)⟩

/-- C8: for a bundle signed for a designated trade category
(`pumpfun`/`bonk`), when the fee helper returns `null` or throws, the
signer still returns exactly the fully signed main transactions; the fee
failure neither aborts nor alters the main signing path. -/
theorem C8_fee_failure_harmless (signTx : Tx → Except Err Tx)
    (protocol : String) (keypairsNonempty : Bool) (b : BuyBundle)
    (signed : List Tx)
    (_hp : protocol = "pumpfun" ∨ protocol = "bonk")
    (hs : mapME signTx b.transactions = .ok signed) :
    completeBundleSigning signTx (.ok none) protocol keypairsNonempty b =
      .ok ⟨signed⟩
    ∧ ∀ e, completeBundleSigning signTx (.error e) protocol keypairsNonempty b =
        .ok ⟨signed⟩ := by
  refine ⟨?_, fun e => ?_⟩ <;>
    · simp only [completeBundleSigning, hs]
      split <;> rfl

/-- Witness for C8 at a concrete one-transaction pumpfun bundle. -/
theorem C8_fee_failure_harmless_witness :
    ("pumpfun" = "pumpfun" ∨ ("pumpfun" : String) = "bonk")
    ∧ completeBundleSigning (fun t => .ok t) (.ok none) "pumpfun" true
        ⟨["t1"]⟩ = .ok ⟨["t1"]⟩
    ∧ completeBundleSigning (fun t => .ok t) (.error ⟨"rpc down"⟩) "pumpfun"
        true ⟨["t1"]⟩ = .ok ⟨["t1"]⟩ := by
  have h := C8_fee_failure_harmless (fun t => .ok t) "pumpfun" true
    ⟨["t1"]⟩ ["t1"] (Or.inl rfl) rfl
  exact ⟨Or.inl rfl, h.1, h.2 ⟨"rpc down"⟩⟩


/-- C9: `executeWithRetry` with `maxRetries = 3` retries only on failures
classified as transient network conditions, waits
`min (1000 * 2 ^ (k - 1)) 5000` milliseconds after failed attempt `k`
(general backoff clause over `retryGo`), propagates the last error after
three failed attempts or on the first non-transient failure, and in
particular an operation that throws a timeout twice then succeeds returns
the success value after waits of 1000 ms and 2000 ms. -/
theorem C9_retry_backoff {α : Type} (op : Nat → Except Err α) (v : α)
    (e1 e2 e3 : Err) :
    (op 1 = .ok v → executeWithRetry op 3 = (.ok v, []))
    ∧ (op 1 = .error e1 → isNetworkError e1 = false →
        executeWithRetry op 3 = (.error e1, []))
    ∧ (op 1 = .error e1 → isNetworkError e1 = true → op 2 = .ok v →
        executeWithRetry op 3 = (.ok v, [1000]))
    ∧ (op 1 = .error e1 → isNetworkError e1 = true →
        op 2 = .error e2 → isNetworkError e2 = false →
        executeWithRetry op 3 = (.error e2, [1000]))
    ∧ (op 1 = .error e1 → isNetworkError e1 = true →
        op 2 = .error e2 → isNetworkError e2 = true → op 3 = .ok v →
        executeWithRetry op 3 = (.ok v, [1000, 2000]))
    ∧ (op 1 = .error e1 → isNetworkError e1 = true →
        op 2 = .error e2 → isNetworkError e2 = true → op 3 = .error e3 →
        executeWithRetry op 3 = (.error e3, [1000, 2000]))
    ∧ (∀ (maxRetries k fuel : Nat) (ds : List Nat) (e : Err),
        op k = .error e → isNetworkError e = true → k ≠ maxRetries →
        retryGo op maxRetries k (fuel + 1) ds =
          retryGo op maxRetries (k + 1) fuel
            (ds ++ [min (1000 * 2 ^ (k - 1)) 5000])) := by
  refine ⟨?_, ?_, ?_, ?_, ?_, ?_, ?_⟩
  · intro h1
    simp [executeWithRetry, retryGo, h1]
  · intro h1 hn1
    simp [executeWithRetry, retryGo, h1, hn1]
  · intro h1 hn1 h2
    simp [executeWithRetry, retryGo, h1, hn1, h2]
  · intro h1 hn1 h2 hn2
    simp [executeWithRetry, retryGo, h1, hn1, h2, hn2]
  · intro h1 hn1 h2 hn2 h3
    simp [executeWithRetry, retryGo, h1, hn1, h2, hn2, h3]
  · intro h1 hn1 h2 hn2 h3
    simp [executeWithRetry, retryGo, h1, hn1, h2, hn2, h3]
  · intro maxRetries k fuel ds e hk hnet hkm
    simp [retryGo, hk, hnet, hkm]

/-- Operation for the C9 witness: times out on the first two attempts and
succeeds on the third. -/
def timeoutTwiceOp : Nat → Except Err Nat :=
  fun k => if k ≤ 2 then .error ⟨"Request timeout exceeded"⟩ else .ok 42

/-- Witness for C9: the timeout-twice-then-succeed operation returns the
success value with waits of 1000 ms then 2000 ms. -/
theorem C9_retry_backoff_witness :
    executeWithRetry timeoutTwiceOp 3 = (.ok 42, [1000, 2000]) := by
  have h := C9_retry_backoff timeoutTwiceOp 42
    ⟨"Request timeout exceeded"⟩ ⟨"Request timeout exceeded"⟩ ⟨"x"⟩
  exact h.2.2.2.2.1 rfl (by decide) rfl (by decide) rfl

/-- Stats of a `start` outcome: `some` the stats of the resulting state,
`none` when `start` threw. -/
def startedStatsOf (r : Except Err BotState) : Option VolumeStats :=
  match r with
  | .ok s => some s.stats
  | .error _ => none

def preStats : VolumeStats := ⟨7, 3, 5, 2, 4, 1⟩

/-- A scheduler state carrying nonzero counters from an earlier session,
currently idle. -/
def c3Pre : BotState := { initialBotState with stats := preStats }

def cfgEx : VolumeConfig := ⟨"token", ["w1", "w2"], 30⟩

/-- C3 counterexample: starting a new session from an idle state whose
counters are nonzero leaves every counter unchanged — `totalTrades` is
still 7, not 0, when the trading loop begins. -/
theorem C3_counterexample :
    startedStatsOf (VolumeBot.start c3Pre cfgEx true) = some preStats
    ∧ preStats.totalTrades = 7 ∧ preStats.totalTrades ≠ 0 := by
  decide

/-- C3 amended: when `start` begins a new session (not already running,
relay endpoint configured) it does not reset `VolumeStats`; every counter
keeps the value it had before the call (counters are zeroed only at
construction). -/
theorem C3_start_keeps_stats (s : BotState) (cfg : VolumeConfig)
    (h : s.isRunning = false) :
    startedStatsOf (VolumeBot.start s cfg true) = some s.stats := by
  simp [VolumeBot.start, h, startTradingLoop, startedStatsOf]

/-- Witness for the amended C3 at the freshly constructed state. -/
theorem C3_start_keeps_stats_witness :
    initialBotState.isRunning = false
    ∧ startedStatsOf (VolumeBot.start initialBotState cfgEx true) =
        some initialBotState.stats :=
  ⟨rfl, C3_start_keeps_stats initialBotState cfgEx rfl⟩

/-- The state reached by starting a session (duration 30 minutes) from a
fresh scheduler: warm-up timeout, interval and duration timeout pending. -/
def c4Started : BotState :=
  match VolumeBot.start initialBotState cfgEx true with
  | .ok s => s
  | .error _ => initialBotState

/-- C4 counterexample: from a running session with three pending timers
(warm-up timeout, interval, duration timeout), `stop` cancels only the
interval — two timers are still pending afterwards, so the end state is
not `Idle` with zero pending timers. -/
theorem C4_counterexample :
    c4Started.isRunning = true
    ∧ pendingTimerCount c4Started = 3
    ∧ pendingTimerCount (VolumeBot.stop c4Started) = 2 := by
  decide

/-- C4 amended: `stop` is idempotent — calling it twice produces the same
end state as calling it once; it clears the interval timer, the running
flag and the config, leaves the untracked warm-up and duration-expiry
timeouts pending, and is a no-op on an idle state. -/
theorem C4_stop_idempotent (s : BotState) :
    VolumeBot.stop (VolumeBot.stop s) = VolumeBot.stop s
    ∧ (VolumeBot.stop s).isRunning = false
    ∧ (VolumeBot.stop s).intervalActive = false
    ∧ (VolumeBot.stop s).config = none
    ∧ (VolumeBot.stop s).warmupTimers = s.warmupTimers
    ∧ (VolumeBot.stop s).durationTimers = s.durationTimers
    ∧ (isIdle s → VolumeBot.stop s = s) := by
  refine ⟨rfl, rfl, rfl, rfl, rfl, rfl, ?_⟩
  intro hidle
  obtain ⟨h1, h2, h3⟩ := hidle
  cases s
  simp_all [VolumeBot.stop]

/-- Witness for the amended C4: stopping the freshly constructed idle
scheduler is a no-op. -/
theorem C4_stop_idempotent_witness :
    VolumeBot.stop (VolumeBot.stop c4Started) = VolumeBot.stop c4Started
    ∧ VolumeBot.stop initialBotState = initialBotState := by
  have h1 := C4_stop_idempotent c4Started
  have h2 := C4_stop_idempotent initialBotState
  exact ⟨h1.1, h2.2.2.2.2.2.2 ⟨rfl, rfl, rfl⟩⟩

/-- C10: `getStats` returns the current counters and leaves the scheduler
state unchanged, and on the heap model the spread copy is a fresh object:
its address differs from the internal stats object's, allocation leaves
the internal object unchanged, and writing any value through the returned
address leaves the internal object unchanged. -/
theorem C10_getStats_fresh_copy (s : BotState) (heap : List VolumeStats)
    (ref : Nat) (v : VolumeStats) (h : ref < heap.length) :
    (getStats s).2 = s
    ∧ (getStats s).1 = s.stats
    ∧ (getStatsAlloc heap ref).1 ≠ ref
    ∧ ((getStatsAlloc heap ref).2)[ref]? = heap[ref]?
    ∧ (((getStatsAlloc heap ref).2).set (getStatsAlloc heap ref).1 v)[ref]? =
        heap[ref]? := by
  refine ⟨rfl, rfl, ?_, ?_, ?_⟩
  · simp only [getStatsAlloc]
    omega
  · simp only [getStatsAlloc]
    rw [List.getElem?_append]
    simp [h]
  · simp only [getStatsAlloc]
    rw [List.getElem?_set_ne (by omega), List.getElem?_append]
    simp [h]

/-- Witness for C10 on a two-cell heap. -/
theorem C10_getStats_fresh_copy_witness :
    (getStats initialBotState).2 = initialBotState
    ∧ (getStatsAlloc [preStats, ⟨0, 0, 0, 0, 0, 0⟩] 0).1 ≠ 0
    ∧ (((getStatsAlloc [preStats, ⟨0, 0, 0, 0, 0, 0⟩] 0).2).set
        (getStatsAlloc [preStats, ⟨0, 0, 0, 0, 0, 0⟩] 0).1
        ⟨9, 9, 9, 9, 9, 9⟩)[0]? = [preStats, ⟨0, 0, 0, 0, 0, 0⟩][0]? := by
  have h := C10_getStats_fresh_copy initialBotState
    [preStats, ⟨0, 0, 0, 0, 0, 0⟩] 0 ⟨9, 9, 9, 9, 9, 9⟩ (by decide)
  exact ⟨h.1, h.2.2.1, h.2.2.2.2⟩

end Bundlerwit

